import Mathlib

/-!
Verification development for the gcsfuse content-mutation core.

The definitions below are a shallow embedding of two source files:

* `mutable/content.go`: the `mutableContent` copy-on-write view
  (`NewContent`, `CheckInvariants`, `Destroy`, `Release`, `ReadAt`,
  `Stat`, `WriteAt`, `Truncate`, `minInt64`, `dirty`,
  `ensureReadWriteLease`);
* `lease/multi_read_proxy.go`: the `multiReadProxy` concatenation proxy
  (`NewMultiReadProxy`, `ReadAt`, `Upgrade`, `CheckInvariants`,
  `upperBound`, `readFromOne`).

The lease and single-read-proxy implementations (`lease.ReadProxy`,
`lease.ReadLease`, `lease.ReadWriteLease`, `lease.FileLeaser`) are repo
code that is not part of the embedded sources; their behaviour is
modelled from the specification (positional-read semantics, POSIX
pwrite semantics, upgrade producing a read/write lease with identical
contents, revocation as the only lease failure mode).  External
non-determinism (upgrade failures from remote fetches, scratch I/O
failures, asynchronous lease revocation, the injected clock) is passed
to each operation explicitly as oracle arguments.

Go `int64` values are modelled as `Int`; byte buffers as `List Nat`.
-/

namespace Gcsfuse

/-- A byte of file content. -/
abbrev Byte := Nat

/-- `math.MaxInt64`, the bound used by `mutableContent.Truncate`.
In Go every `int64` value satisfies `n ≤ maxInt64`. -/
def maxInt64 : Int := 2 ^ 63 - 1

/-- Error kinds that flow through the embedded operations.  The Go code
wraps errors with `fmt.Errorf`; wrapping is modelled by dedicated
constructors.  `external` stands for an arbitrary error produced by a
collaborator (remote fetch failure, scratch I/O failure, ...).
`nilDeref` and `internalPanic` model Go runtime panics on paths that
are unreachable when the checked invariants hold. -/
inductive Err where
  | eof
  | invalidOffset
  | illegalOffset
  | external (code : Nat)
  | upgradeWrapped (e : Err)
  | ensureWrapped (e : Err)
  | newFileWrapped (e : Err)
  | upgradeOneWrapped (i : Nat) (e : Err)
  | wrappedShortRead
  | unexpectedEOF
  | nilDeref
  | internalPanic
  deriving DecidableEq, Repr

/-- Modelled from the spec: shared positional-read semantics of leases
and read proxies ("Returns up to `len(buf)` bytes starting at `offset`.
Returns short read with `ErrEOF` only at end of range", "Edge case:
`offset < 0` returns `ErrInvalidOffset`").  Reading at or beyond the end
of the range yields `ErrEOF`. -/
def pread (data : List Byte) (len : Nat) (off : Int) : List Byte × Option Err :=
  if off < 0 then ([], some .invalidOffset)
  else
    let bytes := (data.drop off.toNat).take len
    (bytes, if (data.length : Int) ≤ off ∨ bytes.length < len then some .eof else none)

/-- Modelled from the spec: POSIX pwrite of `buf` at offset `off`
("Extensions beyond current size are legal and extend the file; gaps
are filled with NULs per POSIX pwrite semantics").  `off` is a
non-negative offset. -/
def pwrite (data : List Byte) (buf : List Byte) (off : Nat) : List Byte :=
  (data.take off ++ List.replicate (off - data.length) 0) ++ buf ++ data.drop (off + buf.length)

/-- Modelled from the spec: POSIX ftruncate to `n` bytes ("extending if
`n` is greater than the current size"). -/
def ftruncate (data : List Byte) (n : Nat) : List Byte :=
  data.take n ++ List.replicate (n - data.length) 0

----------------------------------------------------------------------
-- Leases and read proxies, as seen by mutable/content.go
----------------------------------------------------------------------

/-- Modelled from the spec: a `lease.ReadWriteLease` is an exclusively
owned scratch file; it is never revoked, so the only state is its
contents. -/
structure ReadWriteLease where
  data : List Byte
  deriving DecidableEq, Repr

/-- Modelled from the spec: a `lease.ReadProxy` is an immutable view of
a byte range of known size; `Size` is the length of the proxied
contents. -/
structure ReadProxy where
  contents : List Byte
  deriving DecidableEq, Repr

/-- `ReadProxy.Size`. -/
def ReadProxy.size (p : ReadProxy) : Int := p.contents.length

/-- Outcome of a call to `lease.ReadProxy.Upgrade`, which reaches the
remote store and may fail there.  On success the spec guarantees a
read/write lease "containing exactly the proxied bytes". -/
inductive UpgradeOutcome where
  | ok
  | fail (e : Err)
  deriving DecidableEq, Repr

/-- `lease.ReadWriteLease.ReadAt`: positional read from the scratch
file. -/
def ReadWriteLease.readAt (l : ReadWriteLease) (len : Nat) (off : Int) :
    List Byte × Option Err :=
  pread l.data len off

/-- Modelled from the spec: `lease.ReadWriteLease.WriteAt`.  `io`
injects a scratch I/O failure (`none` means the write succeeds); on
success the write has POSIX pwrite semantics and "writes never fail for
size reasons". -/
def ReadWriteLease.writeAt (io : Option Err) (buf : List Byte) (off : Int)
    (l : ReadWriteLease) : ReadWriteLease × Nat × Option Err :=
  match io with
  | some e => (l, 0, some e)
  | none =>
    if off < 0 then (l, 0, some .invalidOffset)
    else if buf.isEmpty then (l, 0, none)
    else (⟨pwrite l.data buf off.toNat⟩, buf.length, none)

/-- Modelled from the spec: `lease.ReadWriteLease.Truncate`.  `io`
injects a scratch I/O failure. -/
def ReadWriteLease.truncate (io : Option Err) (n : Int)
    (l : ReadWriteLease) : ReadWriteLease × Option Err :=
  match io with
  | some e => (l, some e)
  | none =>
    if n < 0 then (l, some .invalidOffset)
    else (⟨ftruncate l.data n.toNat⟩, none)

----------------------------------------------------------------------
-- mutable/content.go
----------------------------------------------------------------------

/-- `mutable.StatResult`. -/
structure StatResult where
  size : Int
  dirtyThreshold : Int
  mtime : Option Int
  deriving DecidableEq, Repr

/-- The state of a `mutable.mutableContent`.  The `clock` dependency is
modelled by passing the value of `clock.Now()` to each mutating
operation. -/
structure MutableContent where
  destroyed : Bool
  initialContent : Option ReadProxy
  readWriteLease : Option ReadWriteLease
  dirtyThreshold : Int
  mtime : Option Int
  deriving DecidableEq, Repr

/-- `mutable.NewContent`. -/
def NewContent (initialContent : ReadProxy) : MutableContent :=
  { destroyed := false
    initialContent := some initialContent
    readWriteLease := none
    dirtyThreshold := initialContent.size
    mtime := none }

/-- `mutable.minInt64`. -/
def minInt64 (a b : Int) : Int :=
  if a < b then a else b

/-- `mutableContent.dirty`. -/
def MutableContent.dirty (mc : MutableContent) : Bool :=
  mc.readWriteLease.isSome

/-- `mutableContent.CheckInvariants`, as a boolean checker: `true` iff
the Go method does not panic.  (`initialContent.CheckInvariants()` is
vacuous in the model, whose proxies carry no internal invariants.) -/
def MutableContent.checkInvariants (mc : MutableContent) : Bool :=
  !mc.destroyed &&
  !(mc.initialContent.isNone && mc.readWriteLease.isNone) &&
  !(mc.initialContent.isSome && mc.readWriteLease.isSome) &&
  (!mc.dirty || mc.mtime.isSome) &&
  (match mc.initialContent with
   | some ic => mc.dirtyThreshold == ic.size
   | none => true)

/-- `mutableContent.Destroy`.  In the model, destroying the initial
proxy or downgrading-and-revoking the read/write lease just drops
them. -/
def MutableContent.destroy (mc : MutableContent) : MutableContent :=
  { mc with destroyed := true, initialContent := none, readWriteLease := none }

/-- `mutableContent.Release`. -/
def MutableContent.release (mc : MutableContent) :
    MutableContent × Option ReadWriteLease :=
  match mc.readWriteLease with
  | none => (mc, none)
  | some rwl =>
    (MutableContent.destroy { mc with readWriteLease := none }, some rwl)

/-- `mutableContent.ensureReadWriteLease`.  `up` is the outcome of
`initialContent.Upgrade(ctx)`.  Calling with both fields nil would be a
Go nil dereference, modelled by `Err.nilDeref`. -/
def MutableContent.ensureReadWriteLease (up : UpgradeOutcome)
    (mc : MutableContent) : MutableContent × Option Err :=
  match mc.readWriteLease with
  | some _ => (mc, none)
  | none =>
    match mc.initialContent with
    | none => (mc, some .nilDeref)
    | some ic =>
      match up with
      | .fail e => (mc, some (.upgradeWrapped e))
      | .ok =>
        ({ mc with readWriteLease := some ⟨ic.contents⟩, initialContent := none },
         none)

/-- `mutableContent.ReadAt`.  The call does not modify the content's
state; `io` injects a failure of the underlying read (remote fetch or
scratch I/O), `none` yields the deterministic positional-read
semantics. -/
def MutableContent.readAt (io : Option Err) (len : Nat) (off : Int)
    (mc : MutableContent) : List Byte × Option Err :=
  match io with
  | some e => ([], some e)
  | none =>
    match mc.readWriteLease with
    | some rwl => rwl.readAt len off
    | none =>
      match mc.initialContent with
      | some ic => pread ic.contents len off
      | none => ([], some .nilDeref)

/-- `mutableContent.Stat`. -/
def MutableContent.stat (mc : MutableContent) : StatResult × Option Err :=
  match mc.readWriteLease with
  | some rwl =>
    ({ size := rwl.data.length, dirtyThreshold := mc.dirtyThreshold,
       mtime := mc.mtime }, none)
  | none =>
    match mc.initialContent with
    | some ic =>
      ({ size := ic.size, dirtyThreshold := mc.dirtyThreshold,
         mtime := mc.mtime }, none)
    | none =>
      ({ size := 0, dirtyThreshold := mc.dirtyThreshold,
         mtime := mc.mtime }, some .nilDeref)

/-- `mutableContent.WriteAt`.  `up` is the oracle for
`initialContent.Upgrade`, `now` the value of `clock.Now()`, `io` the
scratch I/O oracle for the forwarded `rw.WriteAt`. -/
def MutableContent.writeAt (up : UpgradeOutcome) (now : Int)
    (io : Option Err) (buf : List Byte) (offset : Int)
    (mc : MutableContent) : MutableContent × Nat × Option Err :=
  match mc.ensureReadWriteLease up with
  | (mc1, some e) => (mc1, 0, some (.ensureWrapped e))
  | (mc1, none) =>
    let mc2 := { mc1 with
      dirtyThreshold := minInt64 mc1.dirtyThreshold offset
      mtime := some now }
    match mc2.readWriteLease with
    | none => (mc2, 0, some .nilDeref)
    | some rwl =>
      match rwl.writeAt io buf offset with
      | (rwl2, n, err) => ({ mc2 with readWriteLease := some rwl2 }, n, err)

/-- `mutableContent.Truncate`.  In Go `n` is an `int64`, so the
`n > math.MaxInt64` branch is dead there; the model keeps it. -/
def MutableContent.truncate (up : UpgradeOutcome) (now : Int)
    (io : Option Err) (n : Int) (mc : MutableContent) :
    MutableContent × Option Err :=
  match mc.ensureReadWriteLease up with
  | (mc1, some e) => (mc1, some (.ensureWrapped e))
  | (mc1, none) =>
    if maxInt64 < n then (mc1, some .illegalOffset)
    else
      let mc2 := { mc1 with
        dirtyThreshold := minInt64 mc1.dirtyThreshold n
        mtime := some now }
      match mc2.readWriteLease with
      | none => (mc2, some .nilDeref)
      | some rwl =>
        match rwl.truncate io n with
        | (rwl2, err) => ({ mc2 with readWriteLease := some rwl2 }, err)

----------------------------------------------------------------------
-- Operation sequences on a mutable content
----------------------------------------------------------------------

/-- One call on a mutable content, together with the oracle values
consumed by that call. -/
inductive Op where
  | write (up : UpgradeOutcome) (now : Int) (io : Option Err)
      (buf : List Byte) (offset : Int)
  | trunc (up : UpgradeOutcome) (now : Int) (io : Option Err) (n : Int)
  | read (io : Option Err) (len : Nat) (offset : Int)
  | statOp
  deriving Repr

/-- The state transition of one call.  `ReadAt` and `Stat` do not
modify the state in the source. -/
def Op.step (op : Op) (mc : MutableContent) : MutableContent :=
  match op with
  | .write up now io buf offset => (mc.writeAt up now io buf offset).1
  | .trunc up now io n => (mc.truncate up now io n).1
  | .read _ _ _ => mc
  | .statOp => mc

/-- Run a sequence of calls. -/
def runOps (ops : List Op) (mc : MutableContent) : MutableContent :=
  ops.foldl (fun m op => op.step m) mc

/-- Truncation sizes are Go `int64` values, hence at most
`math.MaxInt64`; other calls are unrestricted. -/
def Op.wf (op : Op) : Prop :=
  match op with
  | .trunc _ _ _ n => n ≤ maxInt64
  | _ => True

instance (op : Op) : Decidable op.wf := by
  cases op <;> simp [Op.wf] <;> infer_instance

----------------------------------------------------------------------
-- lease/multi_read_proxy.go
----------------------------------------------------------------------

/-- Modelled from the spec: a sub read proxy wrapped by the multi read
proxy (`lease.NewReadProxy` applied to one refresher): an immutable
view of its contents, whose `Size` is the contents' length. -/
structure SubProxy where
  contents : List Byte
  deriving DecidableEq, Repr

/-- `lease.ReadProxy.Size` of a wrapped sub-proxy. -/
def SubProxy.size (s : SubProxy) : Int := s.contents.length

/-- Modelled from the spec: a `lease.ReadLease` over fixed contents.
Revocation is asynchronous and is therefore an oracle of each call, not
part of this state. -/
structure ReadLease where
  contents : List Byte
  deriving DecidableEq, Repr

/-- `lease.ReadLease.Size`. -/
def ReadLease.size (l : ReadLease) : Int := l.contents.length

/-- Outcome of one call on a read lease.  Modelled from the spec: a
read lease "may be revoked at any time by the leaser; operations on a
revoked lease fail with a dedicated error kind"; when not revoked, the
call has the deterministic positional-read (or upgrade) semantics. -/
inductive LeaseOutcome where
  | serve
  | revoked
  deriving DecidableEq, Repr

/-- `lease.readProxyAndOffset`. -/
structure ROPair where
  off : Int
  rp : SubProxy
  deriving DecidableEq, Repr

/-- The state of a `lease.multiReadProxy`.  The `leaser` dependency is
modelled by the `newFile` oracle passed to `upgrade`. -/
structure MultiReadProxy where
  size : Int
  rps : List ROPair
  lease : Option ReadLease
  destroyed : Bool
  deriving DecidableEq, Repr

/-- The wrapping loop of `lease.NewMultiReadProxy`: one `ROPair` per
sub-proxy, whose offset is the running size so far. -/
def wrapProxies : List SubProxy → Int → List ROPair
  | [], _ => []
  | s :: rest, off => ⟨off, s⟩ :: wrapProxies rest (off + s.size)

/-- `lease.NewMultiReadProxy`.  The running `size` accumulated by the
Go loop equals the sum of the sub-proxy sizes.  A supplied read lease
whose size differs causes a Go panic, modelled by `none`. -/
def NewMultiReadProxy (subs : List SubProxy) (rl : Option ReadLease) :
    Option MultiReadProxy :=
  let wrappedProxies := wrapProxies subs 0
  let size : Int := (subs.map SubProxy.size).sum
  match rl with
  | some l =>
    if l.size ≠ size then none
    else some { size := size, rps := wrappedProxies, lease := some l,
                destroyed := false }
  | none =>
    some { size := size, rps := wrappedProxies, lease := none,
           destroyed := false }

/-- `multiReadProxy.Size`. -/
def MultiReadProxy.totalSize (mrp : MultiReadProxy) : Int := mrp.size

/-- `multiReadProxy.upperBound`: the index of the first wrapped proxy
whose logical offset is greater than `off`, or `len(rps)` if there is
none.  `sort.Search` returns the least index satisfying the predicate
(which is monotone here because the offsets are sorted), which is what
`findIdx` computes. -/
def MultiReadProxy.upperBound (mrp : MultiReadProxy) (off : Int) : Nat :=
  mrp.rps.findIdx (fun x => off < x.off)

/-- The running-sum check of `multiReadProxy.CheckInvariants`
("For each i>0, rps[i].off == rps[i-1].off + rps[i-1].rp.Size()"),
phrased over adjacent pairs. -/
def chainOk : List ROPair → Bool
  | [] => true
  | [_] => true
  | a :: b :: rest => (b.off == a.off + a.rp.size) && chainOk (b :: rest)

/-- Sum of the wrapped proxy sizes, as accumulated by
`multiReadProxy.CheckInvariants`. -/
def sumSizes (l : List ROPair) : Int :=
  (l.map (fun x => x.rp.size)).sum

/-- `multiReadProxy.CheckInvariants`, as a boolean checker: `true` iff
the Go method does not panic. -/
def MultiReadProxy.checkInvariants (mrp : MultiReadProxy) : Bool :=
  !mrp.destroyed &&
  (match mrp.rps.head? with
   | some first => first.off == 0
   | none => true) &&
  mrp.rps.all (fun x => 0 ≤ x.rp.size) &&
  chainOk mrp.rps &&
  (sumSizes mrp.rps == mrp.size) &&
  (match mrp.lease with
   | some l => mrp.size == l.size
   | none => true)

/-- `multiReadProxy.readFromOne`.  `oSub index` is the outcome of
`mrp.rps[index].rp.ReadAt` (`none`: served with the deterministic
positional-read semantics of the sub-proxy; `some e`: fails with `e`).
The REQUIRES checks, and the deferred guarantee checks, panic in Go;
panics are modelled by `Err.internalPanic`. -/
def MultiReadProxy.readFromOne (mrp : MultiReadProxy)
    (oSub : Nat → Option Err) (index : Nat) (lenp : Nat) (off : Int) :
    List Byte × Option Err :=
  if hidx : index < mrp.rps.length then
    let entry := mrp.rps.get ⟨index, hidx⟩
    let wrapped := entry.rp
    let wrappedStart := entry.off
    let wrappedSize := wrapped.size
    if ¬(wrappedStart ≤ off ∧ off < wrappedStart + wrappedSize) then
      ([], some .internalPanic)
    else
      let wrappedOff := off - wrappedStart
      -- wrapped.ReadAt(p, wrappedOff)
      let res :=
        match oSub index with
        | some e => (([] : List Byte), some e)
        | none => pread wrapped.contents lenp wrappedOff
      -- Sanity check: err == nil only for a full read.
      let res :=
        match res with
        | (bytes, none) =>
          if bytes.length ≠ lenp then (bytes, some Err.wrappedShortRead)
          else (bytes, none)
        | (bytes, some e) =>
          -- Don't return io.EOF, as guaranteed.
          if e = Err.eof then
            if (bytes.length : Int) ≠ wrappedSize - wrappedOff then
              (bytes, some Err.unexpectedEOF)
            else (bytes, none)
          else (bytes, some e)
      -- The deferred guarantee checks on the final (n, err).
      match res with
      | (bytes, none) =>
        if bytes.length = lenp ∨
            off + (bytes.length : Int) = wrappedStart + wrappedSize then
          (bytes, none)
        else (bytes, some .internalPanic)
      | (bytes, some e) =>
        if e = Err.eof then (bytes, some .internalPanic) else (bytes, some e)
  else ([], some .internalPanic)

/-- The accumulation loop of `multiReadProxy.ReadAt` (lines 157-180).
Go tests `wrappedIndex == len(rps)`; the index only ever grows by one
from a value below the length, so testing `≥` is equivalent and makes
termination evident. -/
def MultiReadProxy.readLoop (mrp : MultiReadProxy)
    (oSub : Nat → Option Err) (lenp : Nat) (off : Int) (index : Nat) :
    List Byte × Option Err :=
  if lenp = 0 then ([], none)
  else if mrp.rps.length ≤ index then ([], some .eof)
  else
    match mrp.readFromOne oSub index lenp off with
    | (bytes, some e) => (bytes, some e)
    | (bytes, none) =>
      match mrp.readLoop oSub (lenp - bytes.length)
          (off + (bytes.length : Int)) (index + 1) with
      | (rest, err) => (bytes ++ rest, err)
termination_by mrp.rps.length - index
decreasing_by simp_wf; omega

/-- The non-lease path of `multiReadProxy.ReadAt` (lines 132-182): the
negative-offset and EOF special cases, the `upperBound` search, and the
accumulation loop. -/
def MultiReadProxy.readAtFallback (mrp : MultiReadProxy)
    (oSub : Nat → Option Err) (lenp : Nat) (off : Int) :
    List Byte × Option Err :=
  if off < 0 then ([], some .invalidOffset)
  else if mrp.totalSize ≤ off then ([], some .eof)
  else
    let wrappedIndex : Int := (mrp.upperBound off : Int) - 1
    if wrappedIndex < 0 ∨ (mrp.rps.length : Int) ≤ wrappedIndex then
      ([], some .internalPanic)
    else mrp.readLoop oSub lenp off wrappedIndex.toNat

/-- `multiReadProxy.ReadAt`.  `oL` is the revocation oracle for the
top-level lease (consulted only when the lease is present); `oSub` the
per-sub-proxy outcome oracle.  Returns the new state, the bytes read,
and the error. -/
def MultiReadProxy.readAt (oL : LeaseOutcome) (oSub : Nat → Option Err)
    (lenp : Nat) (off : Int) (mrp : MultiReadProxy) :
    MultiReadProxy × List Byte × Option Err :=
  match mrp.lease with
  | some l =>
    match oL with
    | .serve =>
      -- n, err = mrp.lease.ReadAt(p, off); successful or a
      -- non-revocation error: return as is.
      match pread l.contents lenp off with
      | (bytes, err) => (mrp, bytes, err)
    | .revoked =>
      -- RevokedError: clear the lease and fall through.
      let mrp2 := { mrp with lease := none }
      match mrp2.readAtFallback oSub lenp off with
      | (bytes, err) => (mrp2, bytes, err)
  | none =>
    match mrp.readAtFallback oSub lenp off with
    | (bytes, err) => (mrp, bytes, err)

/-- The accumulation loop of `multiReadProxy.Upgrade` (lines 223-230):
`upgradeOne` for each wrapped proxy in turn.  `oUp i` is the outcome of
`upgradeOne` on the i-th wrapped proxy; success appends that proxy's
contents to the destination read/write lease. -/
def upgradeAccum (oUp : Nat → Option Err) : List ROPair → Nat →
    List Byte → List Byte × Option (Nat × Err)
  | [], _, acc => (acc, none)
  | entry :: rest, i, acc =>
    match oUp i with
    | some e => (acc, some (i, e))
    | none => upgradeAccum oUp rest (i + 1) (acc ++ entry.rp.contents)

/-- The non-lease path of `multiReadProxy.Upgrade` (lines 209-232):
create a fresh read/write lease (`oNew` is the outcome of
`leaser.NewFile`) and accumulate every wrapped proxy into it.  On
failure the deferred cleanup revokes the partly-filled lease, so no
lease is returned. -/
def MultiReadProxy.upgradeFallback (mrp : MultiReadProxy)
    (oNew : Option Err) (oUp : Nat → Option Err) :
    Option ReadWriteLease × Option Err :=
  match oNew with
  | some e => (none, some (.newFileWrapped e))
  | none =>
    match upgradeAccum oUp mrp.rps 0 [] with
    | (acc, none) => (some ⟨acc⟩, none)
    | (_, some (i, e)) => (none, some (.upgradeOneWrapped i e))

/-- `multiReadProxy.Upgrade`.  Destructive: `destroyed` is set on
entry.  `oL` is the revocation oracle for `lease.Upgrade` (modelled
from the spec: "Upgrading a read lease consumes it and, if not revoked,
returns a read/write lease with identical contents"). -/
def MultiReadProxy.upgrade (oL : LeaseOutcome) (oNew : Option Err)
    (oUp : Nat → Option Err) (mrp : MultiReadProxy) :
    MultiReadProxy × Option ReadWriteLease × Option Err :=
  let mrp1 := { mrp with destroyed := true }
  match mrp1.lease with
  | some l =>
    match oL with
    | .serve => (mrp1, some ⟨l.contents⟩, none)
    | .revoked =>
      let mrp2 := { mrp1 with lease := none }
      match mrp2.upgradeFallback oNew oUp with
      | (rwl, err) => (mrp2, rwl, err)
  | none =>
    match mrp1.upgradeFallback oNew oUp with
    | (rwl, err) => (mrp1, rwl, err)

----------------------------------------------------------------------
-- Helper lemmas: mutable content
----------------------------------------------------------------------

theorem minInt64_le_left (a b : Int) : minInt64 a b ≤ a := by
  unfold minInt64; split <;> omega

theorem ensure_state_fields (up : UpgradeOutcome) (mc : MutableContent) :
    (mc.ensureReadWriteLease up).1.destroyed = mc.destroyed ∧
    (mc.ensureReadWriteLease up).1.dirtyThreshold = mc.dirtyThreshold ∧
    (mc.ensureReadWriteLease up).1.mtime = mc.mtime := by
  rcases mc with ⟨des, ic, rw, dt, mt⟩
  unfold MutableContent.ensureReadWriteLease
  cases rw <;> cases ic <;> cases up <;> simp

theorem ensure_err_unchanged {up : UpgradeOutcome} {mc : MutableContent}
    {e : Err} (h : (mc.ensureReadWriteLease up).2 = some e) :
    (mc.ensureReadWriteLease up).1 = mc := by
  rcases mc with ⟨des, ic, rw, dt, mt⟩
  unfold MutableContent.ensureReadWriteLease at *
  cases rw <;> cases ic <;> cases up <;> simp_all

theorem ensure_ok_isSome {up : UpgradeOutcome} {mc : MutableContent}
    (h : (mc.ensureReadWriteLease up).2 = none) :
    (mc.ensureReadWriteLease up).1.readWriteLease.isSome := by
  rcases mc with ⟨des, ic, rw, dt, mt⟩
  unfold MutableContent.ensureReadWriteLease at *
  cases rw <;> cases ic <;> cases up <;> simp_all

theorem ensure_dirty_id {up : UpgradeOutcome} {mc : MutableContent}
    (h : mc.readWriteLease.isSome) :
    mc.ensureReadWriteLease up = (mc, none) := by
  rcases mc with ⟨des, ic, rw, dt, mt⟩
  unfold MutableContent.ensureReadWriteLease
  cases rw <;> simp_all

/-- The state reached by `WriteAt`: either `ensureReadWriteLease`
failed (state unchanged by it), or the dirty bookkeeping ran. -/
theorem writeAt_state_cases (up : UpgradeOutcome) (now : Int)
    (io : Option Err) (buf : List Byte) (offset : Int)
    (mc : MutableContent) :
    (∃ e, (mc.ensureReadWriteLease up).2 = some e ∧
      (mc.writeAt up now io buf offset).1 = mc) ∨
    ((mc.ensureReadWriteLease up).2 = none ∧
      ∃ rwl2, (mc.writeAt up now io buf offset).1 =
        { (mc.ensureReadWriteLease up).1 with
          dirtyThreshold :=
            minInt64 (mc.ensureReadWriteLease up).1.dirtyThreshold offset
          mtime := some now
          readWriteLease := some rwl2 }) := by
  unfold MutableContent.writeAt
  rcases h : mc.ensureReadWriteLease up with ⟨mc1, err⟩
  cases err with
  | some e =>
    exact Or.inl ⟨e, rfl, by rw [← ensure_err_unchanged (h ▸ rfl : (mc.ensureReadWriteLease up).2 = some e), h]⟩
  | none =>
    refine Or.inr ⟨rfl, ?_⟩
    have hs : mc1.readWriteLease.isSome := by
      have := @ensure_ok_isSome up mc (by rw [h])
      rwa [h] at this
    rcases hrw : mc1.readWriteLease with _ | rwl
    · rw [hrw] at hs; simp at hs
    · rcases hw : rwl.writeAt io buf offset with ⟨rwl2, n2, e2⟩
      exact ⟨rwl2, by simp [hrw, hw]⟩

/-- The state reached by `Truncate`: `ensure` failed, or the size was
illegal (bookkeeping skipped), or the dirty bookkeeping ran. -/
theorem truncate_state_cases (up : UpgradeOutcome) (now : Int)
    (io : Option Err) (n : Int) (mc : MutableContent) :
    (∃ e, (mc.ensureReadWriteLease up).2 = some e ∧
      (mc.truncate up now io n).1 = mc) ∨
    ((mc.ensureReadWriteLease up).2 = none ∧ maxInt64 < n ∧
      (mc.truncate up now io n).1 = (mc.ensureReadWriteLease up).1) ∨
    ((mc.ensureReadWriteLease up).2 = none ∧ n ≤ maxInt64 ∧
      ∃ rwl2, (mc.truncate up now io n).1 =
        { (mc.ensureReadWriteLease up).1 with
          dirtyThreshold :=
            minInt64 (mc.ensureReadWriteLease up).1.dirtyThreshold n
          mtime := some now
          readWriteLease := some rwl2 }) := by
  unfold MutableContent.truncate
  rcases h : mc.ensureReadWriteLease up with ⟨mc1, err⟩
  cases err with
  | some e =>
    exact Or.inl ⟨e, rfl, by rw [← ensure_err_unchanged (h ▸ rfl : (mc.ensureReadWriteLease up).2 = some e), h]⟩
  | none =>
    by_cases hn : maxInt64 < n
    · exact Or.inr (Or.inl ⟨rfl, hn, by simp [hn]⟩)
    · refine Or.inr (Or.inr ⟨rfl, by omega, ?_⟩)
      have hs : mc1.readWriteLease.isSome := by
        have := @ensure_ok_isSome up mc (by rw [h])
        rwa [h] at this
      rcases hrw : mc1.readWriteLease with _ | rwl
      · rw [hrw] at hs; simp at hs
      · rcases ht : rwl.truncate io n with ⟨rwl2, e2⟩
        exact ⟨rwl2, by simp [hn, hrw, ht]⟩

theorem step_dirtyThreshold_le (op : Op) (mc : MutableContent) :
    (op.step mc).dirtyThreshold ≤ mc.dirtyThreshold := by
  have hf : ∀ up, (mc.ensureReadWriteLease up).1.dirtyThreshold =
      mc.dirtyThreshold := fun up => (ensure_state_fields up mc).2.1
  cases op with
  | write up now io buf offset =>
    rcases writeAt_state_cases up now io buf offset mc with
      ⟨e, _, hst⟩ | ⟨_, rwl2, hst⟩
    · simp [Op.step, hst]
    · simp only [Op.step, hst, hf]
      exact minInt64_le_left _ _
  | trunc up now io n =>
    rcases truncate_state_cases up now io n mc with
      ⟨e, _, hst⟩ | ⟨_, _, hst⟩ | ⟨_, _, rwl2, hst⟩
    · simp [Op.step, hst]
    · simp [Op.step, hst, hf]
    · simp only [Op.step, hst, hf]
      exact minInt64_le_left _ _
  | read io len offset => simp [Op.step]
  | statOp => simp [Op.step]

theorem runOps_dirtyThreshold_le (ops : List Op) (mc : MutableContent) :
    (runOps ops mc).dirtyThreshold ≤ mc.dirtyThreshold := by
  induction ops generalizing mc with
  | nil => simp [runOps]
  | cons op rest ih =>
    calc (runOps (op :: rest) mc).dirtyThreshold
        = (runOps rest (op.step mc)).dirtyThreshold := by simp [runOps]
      _ ≤ (op.step mc).dirtyThreshold := ih _
      _ ≤ mc.dirtyThreshold := step_dirtyThreshold_le op mc

theorem step_dirty_mono (op : Op) (mc : MutableContent)
    (h : mc.readWriteLease.isSome) : (op.step mc).readWriteLease.isSome := by
  cases op with
  | write up now io buf offset =>
    rcases writeAt_state_cases up now io buf offset mc with
      ⟨e, he, hst⟩ | ⟨_, rwl2, hst⟩
    · rw [ensure_dirty_id h] at he; simp at he
    · simp [Op.step, hst]
  | trunc up now io n =>
    rcases truncate_state_cases up now io n mc with
      ⟨e, he, hst⟩ | ⟨_, _, hst⟩ | ⟨_, _, rwl2, hst⟩
    · rw [ensure_dirty_id h] at he; simp at he
    · rw [ensure_dirty_id h] at hst; simp [Op.step, hst, h]
    · simp [Op.step, hst]
  | read io len offset => simpa [Op.step] using h
  | statOp => simpa [Op.step] using h

----------------------------------------------------------------------
-- Claim C1
----------------------------------------------------------------------

/-- C1: across any sequence of `WriteAt` and `Truncate` calls (indeed
any calls) the dirty threshold is non-increasing; a `WriteAt` at
`offset` whose `ensureReadWriteLease` succeeds sets it to
`min(dirtyThreshold, offset)`, and a `Truncate` to `n` (an `int64`,
hence `n ≤ maxInt64`) whose `ensureReadWriteLease` succeeds sets it to
`min(dirtyThreshold, n)`; no operation ever raises it. -/
theorem C1_dirtyThreshold_monotone (mc : MutableContent) (ops : List Op) :
    (runOps ops mc).dirtyThreshold ≤ mc.dirtyThreshold ∧
    (∀ up now io buf offset, (mc.ensureReadWriteLease up).2 = none →
      ((mc.writeAt up now io buf offset).1).dirtyThreshold =
        minInt64 mc.dirtyThreshold offset) ∧
    (∀ up now io n, (mc.ensureReadWriteLease up).2 = none → n ≤ maxInt64 →
      ((mc.truncate up now io n).1).dirtyThreshold =
        minInt64 mc.dirtyThreshold n) := by
  refine ⟨runOps_dirtyThreshold_le ops mc, ?_, ?_⟩
  · intro up now io buf offset hok
    rcases writeAt_state_cases up now io buf offset mc with
      ⟨e, he, _⟩ | ⟨_, rwl2, hst⟩
    · rw [hok] at he; simp at he
    · rw [hst]; simp [(ensure_state_fields up mc).2.1]
  · intro up now io n hok hn
    rcases truncate_state_cases up now io n mc with
      ⟨e, he, _⟩ | ⟨_, hgt, _⟩ | ⟨_, _, rwl2, hst⟩
    · rw [hok] at he; simp at he
    · omega
    · rw [hst]; simp [(ensure_state_fields up mc).2.1]

/-- Witness for C1 at a concrete content and call sequence. -/
theorem C1_dirtyThreshold_monotone_witness :
    (runOps [Op.write .ok 5 none [9] 1] (NewContent ⟨[1, 2, 3]⟩)).dirtyThreshold ≤
      (NewContent ⟨[1, 2, 3]⟩).dirtyThreshold ∧
    ((NewContent ⟨[1, 2, 3]⟩).writeAt .ok 5 none [9] 1).1.dirtyThreshold =
      minInt64 (NewContent ⟨[1, 2, 3]⟩).dirtyThreshold 1 ∧
    ((NewContent ⟨[1, 2, 3]⟩).truncate .ok 5 none 2).1.dirtyThreshold =
      minInt64 (NewContent ⟨[1, 2, 3]⟩).dirtyThreshold 2 := by
  have h := C1_dirtyThreshold_monotone (NewContent ⟨[1, 2, 3]⟩)
    [Op.write .ok 5 none [9] 1]
  exact ⟨h.1, h.2.1 .ok 5 none [9] 1 (by decide),
    h.2.2 .ok 5 none 2 (by decide) (by decide)⟩

----------------------------------------------------------------------
-- Claim C9
----------------------------------------------------------------------

/-- C9: once a mutable content is dirty (holds the read/write lease),
no subsequent sequence of `ReadAt`, `WriteAt`, `Truncate` or `Stat`
calls ever returns it to the clean state. -/
theorem C9_dirty_is_terminal (mc : MutableContent) (ops : List Op)
    (h : mc.dirty = true) : (runOps ops mc).dirty = true := by
  unfold MutableContent.dirty at *
  induction ops generalizing mc with
  | nil => simpa [runOps] using h
  | cons op rest ih =>
    have h1 : (op.step mc).readWriteLease.isSome :=
      step_dirty_mono op mc (by simpa using h)
    simpa [runOps] using ih (op.step mc) (by simpa using h1)

/-- Witness for C9 at a concrete dirty content. -/
theorem C9_dirty_is_terminal_witness :
    (runOps [Op.trunc .ok 9 none 0, Op.read none 1 0, Op.statOp]
      { destroyed := false, initialContent := none,
        readWriteLease := some ⟨[1]⟩, dirtyThreshold := 1,
        mtime := some 4 }).dirty = true :=
  C9_dirty_is_terminal _ _ (by decide)

----------------------------------------------------------------------
-- Claim C3
----------------------------------------------------------------------

/-- C3: on a clean mutable content (no read/write lease, initial proxy
present), a failing upgrade inside `WriteAt` or `Truncate` surfaces the
wrapped error and leaves the state exactly unchanged, so a later call
can retry. -/
theorem C3_clean_upgrade_failure_unchanged (mc : MutableContent) (e : Err)
    (hclean : mc.readWriteLease = none) (hic : mc.initialContent.isSome) :
    (∀ now io buf offset,
      mc.writeAt (.fail e) now io buf offset =
        (mc, 0, some (.ensureWrapped (.upgradeWrapped e)))) ∧
    (∀ now io n,
      mc.truncate (.fail e) now io n =
        (mc, some (.ensureWrapped (.upgradeWrapped e)))) := by
  rcases Option.isSome_iff_exists.mp hic with ⟨p, hp⟩
  constructor
  · intro now io buf offset
    simp [MutableContent.writeAt, MutableContent.ensureReadWriteLease,
      hclean, hp]
  · intro now io n
    simp [MutableContent.truncate, MutableContent.ensureReadWriteLease,
      hclean, hp]

/-- Witness for C3 at a concrete clean content. -/
theorem C3_clean_upgrade_failure_unchanged_witness :
    (NewContent ⟨[3, 1]⟩).writeAt (.fail (.external 7)) 2 none [5] 0 =
      (NewContent ⟨[3, 1]⟩, 0,
        some (.ensureWrapped (.upgradeWrapped (.external 7)))) ∧
    (NewContent ⟨[3, 1]⟩).truncate (.fail (.external 7)) 2 none 1 =
      (NewContent ⟨[3, 1]⟩,
        some (.ensureWrapped (.upgradeWrapped (.external 7)))) := by
  have h := C3_clean_upgrade_failure_unchanged (NewContent ⟨[3, 1]⟩)
    (.external 7) (by decide) (by decide)
  exact ⟨h.1 2 none [5] 0, h.2 2 none 1⟩

----------------------------------------------------------------------
-- Claim C4
----------------------------------------------------------------------

/-- C4: `Release` on a clean content returns no lease and leaves the
state (in particular the `destroyed` flag) exactly as it was, so the
object stays usable; on a dirty content it returns the read/write lease
and leaves the object destroyed with both content fields cleared
(terminal state). -/
theorem C4_release (mc : MutableContent) :
    (mc.readWriteLease = none → mc.release = (mc, none)) ∧
    (∀ rwl, mc.readWriteLease = some rwl →
      mc.release =
        ({ mc with
            destroyed := true
            initialContent := none
            readWriteLease := none }, some rwl)) := by
  constructor
  · intro h
    simp [MutableContent.release, h]
  · intro rwl h
    simp [MutableContent.release, MutableContent.destroy, h]

/-- Witness for C4 at a concrete clean and a concrete dirty content. -/
theorem C4_release_witness :
    (NewContent ⟨[2]⟩).release = (NewContent ⟨[2]⟩, none) ∧
    ({ destroyed := false, initialContent := none,
       readWriteLease := some ⟨[8]⟩, dirtyThreshold := 0,
       mtime := some 3 } : MutableContent).release =
      ({ destroyed := true, initialContent := none, readWriteLease := none,
         dirtyThreshold := 0, mtime := some 3 }, some ⟨[8]⟩) := by
  refine ⟨(C4_release (NewContent ⟨[2]⟩)).1 (by decide), ?_⟩
  exact (C4_release { destroyed := false, initialContent := none,
                      readWriteLease := some ⟨[8]⟩, dirtyThreshold := 0,
                      mtime := some 3 }).2 ⟨[8]⟩ (by decide)

----------------------------------------------------------------------
-- Claim C10
----------------------------------------------------------------------

/-- C10: on a dirty content, when the forwarded lease operation inside
`WriteAt` (resp. `Truncate` with an `int64` size) fails, the dirty
threshold has already been lowered to the min with the offset (resp.
size) and `mtime` has already been set to the clock value; the
bookkeeping is not rolled back, and the error is returned. -/
theorem C10_bookkeeping_before_forwarding (mc : MutableContent)
    (rwl : ReadWriteLease) (e : Err) (hd : mc.readWriteLease = some rwl) :
    (∀ up now buf offset,
      ((mc.writeAt up now (some e) buf offset).1.dirtyThreshold =
          minInt64 mc.dirtyThreshold offset ∧
        (mc.writeAt up now (some e) buf offset).1.mtime = some now ∧
        (mc.writeAt up now (some e) buf offset).2.2 = some e)) ∧
    (∀ up now n, n ≤ maxInt64 →
      ((mc.truncate up now (some e) n).1.dirtyThreshold =
          minInt64 mc.dirtyThreshold n ∧
        (mc.truncate up now (some e) n).1.mtime = some now ∧
        (mc.truncate up now (some e) n).2 = some e)) := by
  have hs : mc.readWriteLease.isSome := by simp [hd]
  constructor
  · intro up now buf offset
    have he := @ensure_dirty_id up mc hs
    simp [MutableContent.writeAt, he, hd, ReadWriteLease.writeAt]
  · intro up now n hn
    have he := @ensure_dirty_id up mc hs
    have hn2 : ¬(maxInt64 < n) := by omega
    simp [MutableContent.truncate, he, hd, ReadWriteLease.truncate, hn2]

/-- Witness for C10 at a concrete dirty content. -/
theorem C10_bookkeeping_before_forwarding_witness :
    (({ destroyed := false, initialContent := none,
        readWriteLease := some ⟨[1, 2]⟩, dirtyThreshold := 2,
        mtime := some 0 } : MutableContent).writeAt .ok 6 (some (.external 1))
        [7] 1).1.dirtyThreshold = minInt64 2 1 ∧
    (({ destroyed := false, initialContent := none,
        readWriteLease := some ⟨[1, 2]⟩, dirtyThreshold := 2,
        mtime := some 0 } : MutableContent).truncate .ok 6 (some (.external 1))
        0).1.mtime = some 6 := by
  have h := C10_bookkeeping_before_forwarding
    { destroyed := false, initialContent := none,
      readWriteLease := some ⟨[1, 2]⟩, dirtyThreshold := 2, mtime := some 0 }
    ⟨[1, 2]⟩ (.external 1) (by decide)
  exact ⟨(h.1 .ok 6 [7] 1).1, (h.2 .ok 6 0 (by decide)).2.1⟩

----------------------------------------------------------------------
-- Claim C2
----------------------------------------------------------------------

theorem inv_components {mc : MutableContent}
    (h : mc.checkInvariants = true) :
    mc.destroyed = false ∧
    (mc.initialContent.isSome && mc.readWriteLease.isSome) = false := by
  rcases mc with ⟨des, ic, rw, dt, mt⟩
  unfold MutableContent.checkInvariants at h
  cases des <;> cases ic <;> cases rw <;> simp_all

theorem ensure_ok_initial_none {up : UpgradeOutcome} {mc : MutableContent}
    (h : (mc.ensureReadWriteLease up).2 = none)
    (h2 : (mc.initialContent.isSome && mc.readWriteLease.isSome) = false) :
    (mc.ensureReadWriteLease up).1.initialContent = none := by
  rcases mc with ⟨des, ic, rw, dt, mt⟩
  unfold MutableContent.ensureReadWriteLease at *
  cases rw <;> cases ic <;> cases up <;> simp_all

theorem newContent_inv (p : ReadProxy) :
    (NewContent p).checkInvariants = true := by
  simp [NewContent, MutableContent.checkInvariants, MutableContent.dirty]

theorem step_preserves_inv (op : Op) (mc : MutableContent) (hwf : op.wf)
    (h : mc.checkInvariants = true) :
    (op.step mc).checkInvariants = true := by
  obtain ⟨hdes, hboth⟩ := inv_components h
  cases op with
  | write up now io buf offset =>
    rcases writeAt_state_cases up now io buf offset mc with
      ⟨e, he, hst⟩ | ⟨hok, rwl2, hst⟩
    · simpa [Op.step, hst] using h
    · have hinit := ensure_ok_initial_none hok hboth
      have hdes2 := (ensure_state_fields up mc).1
      simp [Op.step, hst, MutableContent.checkInvariants,
        MutableContent.dirty, hinit, hdes2, hdes]
  | trunc up now io n =>
    rcases truncate_state_cases up now io n mc with
      ⟨e, he, hst⟩ | ⟨_, hgt, hst⟩ | ⟨hok, _, rwl2, hst⟩
    · simpa [Op.step, hst] using h
    · exact absurd hgt (by simpa [Op.wf] using hwf)
    · have hinit := ensure_ok_initial_none hok hboth
      have hdes2 := (ensure_state_fields up mc).1
      simp [Op.step, hst, MutableContent.checkInvariants,
        MutableContent.dirty, hinit, hdes2, hdes]
  | read io len offset => simpa [Op.step] using h
  | statOp => simpa [Op.step] using h

/-- C2: the `CheckInvariants` predicate — exactly one of
`initialContent`/`readWriteLease` set, dirty implies `mtime` set, clean
implies `dirtyThreshold = initialContent.Size()`, and not destroyed —
holds after `NewContent` and is preserved by every sequence of
`ReadAt`, `WriteAt`, `Truncate` and `Stat` calls (truncation sizes
being `int64` values). -/
theorem C2_invariants_preserved (p : ReadProxy) (mc : MutableContent)
    (ops : List Op) (hwf : ∀ op ∈ ops, op.wf)
    (h : mc.checkInvariants = true) :
    (NewContent p).checkInvariants = true ∧
    (runOps ops mc).checkInvariants = true := by
  refine ⟨newContent_inv p, ?_⟩
  induction ops generalizing mc with
  | nil => simpa [runOps] using h
  | cons op rest ih =>
    have h1 := step_preserves_inv op mc (hwf op (by simp)) h
    simpa [runOps] using
      ih (op.step mc) (fun o ho => hwf o (List.mem_cons_of_mem _ ho)) h1

/-- Witness for C2 on a concrete content and call sequence exercising
all four operations. -/
theorem C2_invariants_preserved_witness :
    (NewContent ⟨[4]⟩).checkInvariants = true ∧
    (runOps [Op.write .ok 1 none [5] 0, Op.trunc .ok 2 none 1,
      Op.read none 1 0, Op.statOp]
      (NewContent ⟨[4, 6]⟩)).checkInvariants = true :=
  C2_invariants_preserved ⟨[4]⟩ (NewContent ⟨[4, 6]⟩) _ (by decide) (by decide)

----------------------------------------------------------------------
-- Claim C5
----------------------------------------------------------------------

theorem pread_pwrite (data buf : List Byte) (off : Nat) :
    ((pwrite data buf off).drop off).take buf.length = buf := by
  unfold pwrite
  set A := data.take off ++ List.replicate (off - data.length) (0 : Byte)
    with hAdef
  have hA : A.length = off := by
    simp only [hAdef, List.length_append, List.length_take,
      List.length_replicate]
    omega
  rw [List.append_assoc, ← hA, List.drop_left, List.take_left]

/-- C5: after a successful `WriteAt` of `buf` at a non-negative offset
`off`, reading `len(buf)` bytes at `off` (with no intervening
modification) yields exactly `buf`. -/
theorem C5_write_then_read_roundtrip (mc : MutableContent)
    (up : UpgradeOutcome) (now : Int) (buf : List Byte) (off : Int)
    (h0 : 0 ≤ off)
    (hok : (mc.writeAt up now none buf off).2.2 = none) :
    ((mc.writeAt up now none buf off).1.readAt none buf.length off).1 =
      buf := by
  have hoff : ¬off < 0 := by omega
  unfold MutableContent.writeAt at hok ⊢
  rcases h : mc.ensureReadWriteLease up with ⟨mc1, err⟩
  cases err with
  | some e => rw [h] at hok; simp at hok
  | none =>
    have hs : mc1.readWriteLease.isSome := by
      have := @ensure_ok_isSome up mc (by rw [h])
      rwa [h] at this
    rcases hrw : mc1.readWriteLease with _ | rwl
    · rw [hrw] at hs; simp at hs
    · by_cases hb : buf.isEmpty
      · have hbuf : buf = [] := by simpa using hb
        subst hbuf
        simp [ReadWriteLease.writeAt, hrw, MutableContent.readAt,
          ReadWriteLease.readAt, pread, hoff]
      · simp [ReadWriteLease.writeAt, hrw, hb, MutableContent.readAt,
          ReadWriteLease.readAt, pread, hoff]
        exact pread_pwrite rwl.data buf off.toNat

/-- Witness for C5 at a concrete content, buffer and offset. -/
theorem C5_write_then_read_roundtrip_witness :
    (((NewContent ⟨[1, 2, 3, 4]⟩).writeAt .ok 5 none [9, 8] 1).1.readAt
      none 2 1).1 = [9, 8] :=
  C5_write_then_read_roundtrip (NewContent ⟨[1, 2, 3, 4]⟩) .ok 5 [9, 8] 1
    (by decide) (by decide)

----------------------------------------------------------------------
-- Helper lemmas: multi read proxy
----------------------------------------------------------------------

theorem wrap_map_rp (subs : List SubProxy) (start : Int) :
    (wrapProxies subs start).map (fun x => x.rp) = subs := by
  induction subs generalizing start with
  | nil => rfl
  | cons s rest ih => simp [wrapProxies, ih]

theorem sumSizes_wrap (subs : List SubProxy) (start : Int) :
    sumSizes (wrapProxies subs start) = (subs.map SubProxy.size).sum := by
  induction subs generalizing start with
  | nil => rfl
  | cons s rest ih =>
    rw [wrapProxies]
    have h : sumSizes (⟨start, s⟩ :: wrapProxies rest (start + s.size)) =
        s.size + sumSizes (wrapProxies rest (start + s.size)) := by
      simp [sumSizes]
    rw [h, ih (start + s.size)]
    simp

theorem sumSizes_nonneg (l : List ROPair) : 0 ≤ sumSizes l := by
  induction l with
  | nil => simp [sumSizes]
  | cons a rest ih =>
    have h1 : 0 ≤ a.rp.size := by simp [SubProxy.size]
    have h2 : sumSizes (a :: rest) = a.rp.size + sumSizes rest := by
      simp [sumSizes]
    rw [h2]
    linarith

theorem chain_wrap (subs : List SubProxy) (start : Int) :
    chainOk (wrapProxies subs start) = true := by
  induction subs generalizing start with
  | nil => rfl
  | cons s rest ih =>
    cases rest with
    | nil => rfl
    | cons s2 rest2 =>
      have h := ih (start + s.size)
      simp only [wrapProxies] at h ⊢
      simp [chainOk, h]

theorem all_sizes_nonneg (l : List ROPair) :
    (l.all fun x => decide (0 ≤ x.rp.size)) = true := by
  rw [List.all_eq_true]
  intro x _
  simp [SubProxy.size]

theorem wrap_get_off (subs : List SubProxy) (start : Int) :
    ∀ i (h : i < (wrapProxies subs start).length),
      ((wrapProxies subs start).get ⟨i, h⟩).off =
        start + ((subs.take i).map SubProxy.size).sum := by
  induction subs generalizing start with
  | nil => intro i h; simp [wrapProxies] at h
  | cons s rest ih =>
    intro i h
    cases i with
    | zero => simp [wrapProxies]
    | succ j =>
      have h2 : j < (wrapProxies rest (start + s.size)).length := by
        simpa [wrapProxies] using h
      have h3 := ih (start + s.size) j h2
      simp only [wrapProxies, List.get_cons_succ, h3, List.take_succ_cons,
        List.map_cons, List.sum_cons]
      ring

/-- Inverting a successful `NewMultiReadProxy`: the construction panics
nowhere, `CheckInvariants` passes, and the wrapped list is the offset
table built from the sub-proxies. -/
theorem newMulti_inv {subs : List SubProxy} {rl : Option ReadLease}
    {mrp : MultiReadProxy} (hc : NewMultiReadProxy subs rl = some mrp) :
    mrp.checkInvariants = true ∧ mrp.rps = wrapProxies subs 0 := by
  have hhead : (match (wrapProxies subs 0).head? with
      | some first => first.off == 0
      | none => true) = true := by
    cases subs with
    | nil => rfl
    | cons s rest => simp [wrapProxies]
  have hcore : ∀ ls : Option ReadLease,
      (match ls with
        | some l => (subs.map SubProxy.size).sum == l.size
        | none => true) = true →
      MultiReadProxy.checkInvariants
        ⟨(subs.map SubProxy.size).sum, wrapProxies subs 0, ls, false⟩ =
          true := by
    intro ls hls
    unfold MultiReadProxy.checkInvariants
    rw [Bool.and_eq_true, Bool.and_eq_true, Bool.and_eq_true,
      Bool.and_eq_true, Bool.and_eq_true]
    exact ⟨⟨⟨⟨⟨rfl, hhead⟩, all_sizes_nonneg _⟩, chain_wrap subs 0⟩,
      by simp [sumSizes_wrap]⟩, hls⟩
  unfold NewMultiReadProxy at hc
  cases rl with
  | none =>
    simp only [Option.some.injEq] at hc
    subst hc
    exact ⟨hcore none rfl, rfl⟩
  | some l =>
    by_cases hsz : l.size ≠ (subs.map SubProxy.size).sum
    · simp [hsz] at hc
    · simp only [hsz, if_false, Option.some.injEq, ite_false] at hc
      subst hc
      refine ⟨hcore (some l) ?_, rfl⟩
      simp only [not_not] at hsz
      simp [hsz]

theorem lease_size_of_inv {mrp : MultiReadProxy} {l : ReadLease}
    (h : mrp.checkInvariants = true) (hl : mrp.lease = some l) :
    mrp.size = l.size := by
  unfold MultiReadProxy.checkInvariants at h
  rw [hl] at h
  simp only [Bool.and_eq_true, beq_iff_eq] at h
  exact h.2

theorem size_nonneg_of_inv {mrp : MultiReadProxy}
    (h : mrp.checkInvariants = true) : 0 ≤ mrp.size := by
  have hs := sumSizes_nonneg mrp.rps
  have h2 : sumSizes mrp.rps = mrp.size := by
    unfold MultiReadProxy.checkInvariants at h
    simp only [Bool.and_eq_true, beq_iff_eq] at h
    exact h.1.2
  omega

theorem inv_lease_clear {mrp : MultiReadProxy}
    (h : mrp.checkInvariants = true) :
    MultiReadProxy.checkInvariants { mrp with lease := none } = true := by
  rcases mrp with ⟨sz, rps, lease, des⟩
  unfold MultiReadProxy.checkInvariants at *
  cases lease <;> simp_all

/-- `ReadAt` either leaves the proxy untouched or only clears the
top-level lease. -/
theorem readAt_state (oL : LeaseOutcome) (oSub : Nat → Option Err)
    (lenp : Nat) (off : Int) (mrp : MultiReadProxy) :
    (MultiReadProxy.readAt oL oSub lenp off mrp).1 = mrp ∨
    (MultiReadProxy.readAt oL oSub lenp off mrp).1 =
      { mrp with lease := none } := by
  rcases mrp with ⟨sz, rps, lease, des⟩
  cases lease with
  | none =>
    left
    unfold MultiReadProxy.readAt
    rcases hf : MultiReadProxy.readAtFallback
      ⟨sz, rps, none, des⟩ oSub lenp off with ⟨bytes, err⟩
    simp [hf]
  | some l =>
    cases oL with
    | serve =>
      left
      unfold MultiReadProxy.readAt
      rcases hp : pread l.contents lenp off with ⟨bytes, err⟩
      simp [hp]
    | revoked =>
      right
      unfold MultiReadProxy.readAt
      rcases hf : MultiReadProxy.readAtFallback
        ⟨sz, rps, none, des⟩ oSub lenp off with ⟨bytes, err⟩
      simp [hf]

----------------------------------------------------------------------
-- Claim C6
----------------------------------------------------------------------

/-- C6: with a top-level read lease attached, `ReadAt` and `Upgrade`
consult the lease first: a successful lease call, or a non-revocation
error from it (`ErrEOF`, `ErrInvalidOffset`), is returned unchanged
with the lease kept; a revoked-lease error clears the lease field once
and serves the call through the per-sub-proxy fallback path; and any
proxy whose lease field is cleared serves every future `ReadAt` through
that fallback path, its state unchanged. -/
theorem C6_lease_fast_path_and_revocation (mrp : MultiReadProxy)
    (l : ReadLease) (hl : mrp.lease = some l) (oSub : Nat → Option Err)
    (lenp : Nat) (off : Int) (oNew : Option Err) :
    (MultiReadProxy.readAt .serve oSub lenp off mrp =
      (mrp, pread l.contents lenp off)) ∧
    (MultiReadProxy.readAt .revoked oSub lenp off mrp =
      ({ mrp with lease := none },
        MultiReadProxy.readAtFallback { mrp with lease := none }
          oSub lenp off)) ∧
    (∀ mrp2 : MultiReadProxy, mrp2.lease = none → ∀ oL,
      MultiReadProxy.readAt oL oSub lenp off mrp2 =
        (mrp2, MultiReadProxy.readAtFallback mrp2 oSub lenp off)) ∧
    (MultiReadProxy.upgrade .serve oNew oSub mrp =
      ({ mrp with destroyed := true }, some ⟨l.contents⟩, none)) ∧
    (MultiReadProxy.upgrade .revoked oNew oSub mrp =
      ({ mrp with destroyed := true, lease := none },
        MultiReadProxy.upgradeFallback
          { mrp with destroyed := true, lease := none } oNew oSub)) := by
  refine ⟨?_, ?_, ?_, ?_, ?_⟩
  · unfold MultiReadProxy.readAt
    rw [hl]
  · unfold MultiReadProxy.readAt
    rw [hl]
  · intro mrp2 h2 oL
    unfold MultiReadProxy.readAt
    rw [h2]
  · unfold MultiReadProxy.upgrade
    simp only [hl]
  · unfold MultiReadProxy.upgrade
    simp only [hl]

/-- Witness for C6 on a concrete proxy with an attached lease. -/
theorem C6_lease_fast_path_and_revocation_witness :
    MultiReadProxy.readAt .serve (fun _ => none) 1 0
        ⟨2, [⟨0, ⟨[7, 5]⟩⟩], some ⟨[7, 5]⟩, false⟩ =
      (⟨2, [⟨0, ⟨[7, 5]⟩⟩], some ⟨[7, 5]⟩, false⟩, pread [7, 5] 1 0) ∧
    MultiReadProxy.upgrade .serve none (fun _ => none)
        ⟨2, [⟨0, ⟨[7, 5]⟩⟩], some ⟨[7, 5]⟩, false⟩ =
      (⟨2, [⟨0, ⟨[7, 5]⟩⟩], some ⟨[7, 5]⟩, true⟩, some ⟨[7, 5]⟩, none) := by
  have h := C6_lease_fast_path_and_revocation
    ⟨2, [⟨0, ⟨[7, 5]⟩⟩], some ⟨[7, 5]⟩, false⟩ ⟨[7, 5]⟩ rfl
    (fun _ => none) 1 0 none
  exact ⟨h.1, h.2.2.2.1⟩

----------------------------------------------------------------------
-- Claim C7
----------------------------------------------------------------------

/-- C7: for a well-formed multi read proxy, `ReadAt` at a negative
offset returns the invalid-offset error, and `ReadAt` at or beyond the
total size returns the EOF error — whether or not a top-level read
lease is attached, and whatever the lease and sub-proxy outcomes
are. -/
theorem C7_readAt_edge_cases (mrp : MultiReadProxy) (oL : LeaseOutcome)
    (oSub : Nat → Option Err) (lenp : Nat) (off : Int)
    (hinv : mrp.checkInvariants = true) :
    (off < 0 →
      (MultiReadProxy.readAt oL oSub lenp off mrp).2.2 =
        some .invalidOffset) ∧
    (mrp.size ≤ off →
      (MultiReadProxy.readAt oL oSub lenp off mrp).2.2 = some .eof) := by
  have hsz : 0 ≤ mrp.size := size_nonneg_of_inv hinv
  constructor
  · intro hneg
    rcases hlease : mrp.lease with _ | l
    · unfold MultiReadProxy.readAt
      rw [hlease]
      simp [MultiReadProxy.readAtFallback, hneg]
    · cases oL with
      | serve =>
        unfold MultiReadProxy.readAt
        rw [hlease]
        simp [pread, hneg]
      | revoked =>
        unfold MultiReadProxy.readAt
        rw [hlease]
        simp [MultiReadProxy.readAtFallback, hneg]
  · intro hge
    have hnneg : ¬off < 0 := by omega
    rcases hlease : mrp.lease with _ | l
    · unfold MultiReadProxy.readAt
      rw [hlease]
      simp [MultiReadProxy.readAtFallback, MultiReadProxy.totalSize,
        hnneg, hge]
    · cases oL with
      | serve =>
        have hlen := lease_size_of_inv hinv hlease
        have hcond : (l.contents.length : Int) ≤ off := by
          have h2 : mrp.size = (l.contents.length : Int) := by
            simpa [ReadLease.size] using hlen
          omega
        unfold MultiReadProxy.readAt
        rw [hlease]
        simp [pread, hnneg, hcond]
      | revoked =>
        unfold MultiReadProxy.readAt
        rw [hlease]
        simp [MultiReadProxy.readAtFallback, MultiReadProxy.totalSize,
          hnneg, hge]

/-- Witness for C7 on a concrete proxy, at a negative offset and at an
offset beyond the total size. -/
theorem C7_readAt_edge_cases_witness :
    (MultiReadProxy.readAt .serve (fun _ => none) 1 (-1)
      ⟨2, [⟨0, ⟨[7, 5]⟩⟩], some ⟨[7, 5]⟩, false⟩).2.2 =
        some .invalidOffset ∧
    (MultiReadProxy.readAt .revoked (fun _ => none) 1 9
      ⟨2, [⟨0, ⟨[7, 5]⟩⟩], some ⟨[7, 5]⟩, false⟩).2.2 = some .eof := by
  constructor
  · exact (C7_readAt_edge_cases ⟨2, [⟨0, ⟨[7, 5]⟩⟩], some ⟨[7, 5]⟩, false⟩
      .serve (fun _ => none) 1 (-1) (by decide)).1 (by decide)
  · exact (C7_readAt_edge_cases ⟨2, [⟨0, ⟨[7, 5]⟩⟩], some ⟨[7, 5]⟩, false⟩
      .revoked (fun _ => none) 1 9 (by decide)).2 (by decide)

----------------------------------------------------------------------
-- Claim C8
----------------------------------------------------------------------

/-- C8: a successfully constructed multi read proxy satisfies
`CheckInvariants` — sub-proxy 0 has offset 0, each offset is the
previous offset plus the previous size, the total size is the sum of
the sub-proxy sizes, and an attached top-level lease has exactly that
size; moreover the recorded offset of sub-proxy `i` is the sum of the
sizes of sub-proxies `j < i`; and the invariants are preserved by
`ReadAt`. -/
theorem C8_multi_proxy_invariants (subs : List SubProxy)
    (rl : Option ReadLease) (mrp mrp2 : MultiReadProxy)
    (oL : LeaseOutcome) (oSub : Nat → Option Err) (lenp : Nat) (off : Int)
    (hc : NewMultiReadProxy subs rl = some mrp)
    (hi : mrp2.checkInvariants = true) :
    mrp.checkInvariants = true ∧
    (∀ i (h : i < mrp.rps.length),
      (mrp.rps.get ⟨i, h⟩).off = ((subs.take i).map SubProxy.size).sum) ∧
    (MultiReadProxy.readAt oL oSub lenp off mrp2).1.checkInvariants =
      true := by
  obtain ⟨hinv, hrps⟩ := newMulti_inv hc
  refine ⟨hinv, ?_, ?_⟩
  · intro i h
    have h2 : i < (wrapProxies subs 0).length := by rw [← hrps]; exact h
    have h4 : mrp.rps.get? i = (wrapProxies subs 0).get? i := by rw [hrps]
    rw [List.get?_eq_get h, List.get?_eq_get h2, Option.some.injEq] at h4
    rw [h4, wrap_get_off subs 0 i h2]
    ring
  · rcases readAt_state oL oSub lenp off mrp2 with hst | hst
    · rw [hst]; exact hi
    · rw [hst]; exact inv_lease_clear hi

/-- Witness for C8 on a concrete construction. -/
theorem C8_multi_proxy_invariants_witness :
    MultiReadProxy.checkInvariants
      ⟨3, [⟨0, ⟨[1, 2]⟩⟩, ⟨2, ⟨[3]⟩⟩], some ⟨[1, 2, 3]⟩, false⟩ = true ∧
    (MultiReadProxy.readAt .revoked (fun _ => none) 1 0
      ⟨3, [⟨0, ⟨[1, 2]⟩⟩, ⟨2, ⟨[3]⟩⟩], some ⟨[1, 2, 3]⟩,
        false⟩).1.checkInvariants = true := by
  have h := C8_multi_proxy_invariants [⟨[1, 2]⟩, ⟨[3]⟩]
    (some ⟨[1, 2, 3]⟩)
    ⟨3, [⟨0, ⟨[1, 2]⟩⟩, ⟨2, ⟨[3]⟩⟩], some ⟨[1, 2, 3]⟩, false⟩
    ⟨3, [⟨0, ⟨[1, 2]⟩⟩, ⟨2, ⟨[3]⟩⟩], some ⟨[1, 2, 3]⟩, false⟩
    .revoked (fun _ => none) 1 0 (by decide) (by decide)
  exact ⟨h.1, h.2.2⟩

end Gcsfuse
